import Mathlib

/-!
Verification of the ride-cost-splitting ledger in `streamlit_app.py`
(Registro de Traslados Papudo - La Ligua).

The embedding translates the pandas data-frame pipeline into lists of
records.  A data-frame row becomes a `Leg`; a raw CSV row (before the
`_clean_df` coercions) becomes a `RawRow`, with `Option` encoding cells
that pandas would turn into NaN / NA (missing or non-numeric input).
Dates are represented by an abstract `Nat` rank (any order-preserving
encoding of calendar dates, e.g. 20250110 for 2025-01-10).
-/

namespace Papudo

/-- Configured roster, from `PARTICIPANTES` in the source. -/
def PARTICIPANTES : List String := ["JP", "Gerard", "Paula", "Wilson", "Valentina"]

/-- Configured driver list, from `CONDUCTORES` in the source. -/
def CONDUCTORES : List String := ["Wilson", "Valentina"]

/-- A data-frame row after `_clean_df`: `id` is a nullable integer column
(`Int64`), `fecha` a date column (`none` = NaT), the three money/count
columns are plain integers (non-numeric input already coerced to 0), and
`pasajeros` is the raw `;`-separated cell (`none` = NaN, untouched by
`_clean_df`). -/
structure Leg where
  id : Option Int
  fecha : Option Nat
  conductor : String
  tramo : String
  pasajeros : Option String
  tarifa_por_tramo : Int
  n_pasajeros : Int
  monto_al_conductor : Int
  deriving DecidableEq

/-- A raw imported row before `_clean_df`: every numeric cell may be
missing or non-numeric (`none`), exactly the cases `pd.to_numeric(...,
errors="coerce")` maps to NaN. -/
structure RawRow where
  id : Option Int
  fecha : Option Nat
  conductor : String
  tramo : String
  pasajeros : Option String
  tarifa_por_tramo : Option Int
  n_pasajeros : Option Int
  monto_al_conductor : Option Int
  deriving DecidableEq

/-- `_clean_df`, one row at a time: `id` stays nullable (`Int64`), the
three numeric columns get `fillna(0).astype(int)`, and `fecha`,
`conductor`, `tramo`, `pasajeros` pass through. -/
def cleanRow (r : RawRow) : Leg :=
  { id := r.id
    fecha := r.fecha
    conductor := r.conductor
    tramo := r.tramo
    pasajeros := r.pasajeros
    tarifa_por_tramo := r.tarifa_por_tramo.getD 0
    n_pasajeros := r.n_pasajeros.getD 0
    monto_al_conductor := r.monto_al_conductor.getD 0 }

/-- `_clean_df` over the whole frame. -/
def cleanDF (rows : List RawRow) : List Leg := rows.map cleanRow

/-- Splitting a character list at every `;`, the semantics of Python
`str.split(";")` (an empty string yields one empty part). -/
def splitSemiAux (cur : List Char) : List Char → List (List Char)
  | [] => [cur.reverse]
  | c :: cs => if c = ';' then cur.reverse :: splitSemiAux [] cs else splitSemiAux (c :: cur) cs

/-- Python `str(s).split(";")` on a string. -/
def splitSemi (s : String) : List String :=
  (splitSemiAux [] s.data).map (fun cs => String.mk cs)

/-- The passenger-list parse used by `_explode_pasajeros`:
`[p for p in str(s).split(";") if p]` applied to `fillna("")`. -/
def parsePasajeros (s : Option String) : List String :=
  (splitSemi (s.getD "")).filter (fun p => p ≠ "")

/-- A row of the exploded frame produced by `_explode_pasajeros`:
`pasajero := none` models the NaN cell that `DataFrame.explode` leaves
behind when a row's passenger list is empty. -/
structure ExplRow where
  fecha : Option Nat
  conductor : String
  tramo : String
  pasajero : Option String
  monto : Int
  deriving DecidableEq

/-- `_explode_pasajeros` on a single leg: one output row per parsed
passenger with `monto = tarifa_por_tramo`; an empty parsed list leaves a
single row whose `pasajero` is NaN (pandas `explode` semantics). -/
def explodeLeg (l : Leg) : List ExplRow :=
  match parsePasajeros l.pasajeros with
  | [] => [{ fecha := l.fecha, conductor := l.conductor, tramo := l.tramo,
             pasajero := none, monto := l.tarifa_por_tramo }]
  | ps => ps.map (fun p => { fecha := l.fecha, conductor := l.conductor, tramo := l.tramo,
                             pasajero := some p, monto := l.tarifa_por_tramo })

/-- `_explode_pasajeros` over the whole frame. -/
def explodePasajeros (df : List Leg) : List ExplRow := df.flatMap explodeLeg

/-- One group of the `expl.groupby("pasajero")["monto"].sum()` result:
total owed by passenger `p`.  pandas drops the NaN key, which the
`e.pasajero == some p` test reproduces. -/
def owedTo (expl : List ExplRow) (p : String) : Int :=
  ((expl.filter (fun e => e.pasajero == some p)).map (fun e => e.monto)).sum

/-- One group of `df.groupby("conductor")["monto_al_conductor"].sum()`:
total collectable by driver `c`. -/
def driverTotal (legs : List Leg) (c : String) : Int :=
  ((legs.filter (fun l => l.conductor == c)).map (fun l => l.monto_al_conductor)).sum

/-- One cell of the `pivot_table(index="pasajero", columns="conductor",
values="monto", aggfunc="sum", fill_value=0)` result. -/
def matrixEntry (expl : List ExplRow) (p c : String) : Int :=
  ((expl.filter (fun e => e.pasajero == some p && e.conductor == c)).map (fun e => e.monto)).sum

/-- The displayed per-person summary `sum_p`: groupby then
`reindex(PARTICIPANTES, fill_value=0)`, so one entry per roster member
in roster order. -/
def sum_p_display (legs : List Leg) : List (String × Int) :=
  PARTICIPANTES.map (fun p => (p, owedTo (explodePasajeros legs) p))

/-- `_pivot_pasajero_conductor`: the pivot table reindexed to
`PARTICIPANTES × CONDUCTORES` with zero fill, hence a dense
roster-shaped table whose cells are `matrixEntry` values. -/
def matrixTable (legs : List Leg) : List (String × List (String × Int)) :=
  PARTICIPANTES.map (fun p =>
    (p, CONDUCTORES.map (fun c => (c, matrixEntry (explodePasajeros legs) p c))))

/-- Net balance of a participant: total collectable as driver minus
total owed as passenger (spec section 4.3). -/
def netBalance (legs : List Leg) (p : String) : Int :=
  driverTotal legs p - owedTo (explodePasajeros legs) p

/-- The column of amounts actually allocated to passengers: the `monto`
values of the exploded rows whose `pasajero` key is not NaN (the rows
every passenger-keyed groupby and pivot aggregates). -/
def allocColumn (expl : List ExplRow) : List Int :=
  expl.filterMap (fun e => e.pasajero.map (fun _ => e.monto))

/-- The allocation a single leg generates, spec section 4.2: the
non-NaN rows of its explosion, as (passenger, amount) pairs. -/
def allocate (l : Leg) : List (String × Int) :=
  (explodeLeg l).filterMap (fun e => e.pasajero.map (fun p => (p, e.monto)))

end Papudo

namespace Papudo

/-- Lexicographic strict comparison of character lists by code point,
the order pandas uses when sorting a string column. -/
def charListLt : List Char → List Char → Bool
  | [], [] => false
  | [], _ :: _ => true
  | _ :: _, [] => false
  | a :: as, b :: bs => if a = b then charListLt as bs else decide (a < b)

/-- Strict string comparison (code-point lexicographic). -/
def strLtB (a b : String) : Bool := charListLt a.data b.data

/-- A decidable strict linear order packaged as a `Bool` comparison,
with the three facts the sorting lemmas need. -/
class DecLinOrd (α : Type) where
  ltB : α → α → Bool
  ltB_trans : ∀ a b c, ltB a b = true → ltB b c = true → ltB a c = true
  ltB_asymm : ∀ a b, ltB a b = true → ltB b a = false
  ltB_tricho : ∀ a b, ltB a b = false → ltB b a = false → a = b

instance : DecLinOrd Nat where
  ltB a b := decide (a < b)
  ltB_trans a b c h1 h2 := by
    simp only [decide_eq_true_eq] at *
    omega
  ltB_asymm a b h := by
    simp only [decide_eq_true_eq, decide_eq_false_iff_not] at *
    omega
  ltB_tricho a b h1 h2 := by
    simp only [decide_eq_false_iff_not] at *
    omega

instance : DecLinOrd String where
  ltB := strLtB
  ltB_trans a b c h1 h2 := by
    have main : ∀ x y z : List Char, charListLt x y = true → charListLt y z = true →
        charListLt x z = true := by
      intro x
      induction x with
      | nil =>
        intro y z h1 h2
        cases y with
        | nil => simp [charListLt] at h1
        | cons y ys =>
          cases z with
          | nil => simp [charListLt] at h2
          | cons w ws => simp [charListLt]
      | cons x xs ih =>
        intro y z h1 h2
        cases y with
        | nil => simp [charListLt] at h1
        | cons y ys =>
          cases z with
          | nil => simp [charListLt] at h2
          | cons w ws =>
            simp only [charListLt] at h1 h2 ⊢
            by_cases hxy : x = y
            · subst hxy
              simp only [if_pos rfl] at h1
              by_cases hyz : x = w
              · subst hyz
                simp only [if_pos rfl] at h2 ⊢
                exact ih ys ws h1 h2
              · simp only [if_neg hyz] at h2 ⊢
                exact h2
            · simp only [if_neg hxy] at h1
              rw [decide_eq_true_eq] at h1
              by_cases hyz : y = w
              · subst hyz
                simp only [if_neg hxy, decide_eq_true_eq]
                exact h1
              · simp only [if_neg hyz, decide_eq_true_eq] at h2
                have hxz : x < w := lt_trans h1 h2
                simp only [if_neg (ne_of_lt hxz), decide_eq_true_eq]
                exact hxz
    exact main a.data b.data c.data h1 h2
  ltB_asymm a b h := by
    have main : ∀ x y : List Char, charListLt x y = true → charListLt y x = false := by
      intro x
      induction x with
      | nil =>
        intro y h
        cases y with
        | nil => simp [charListLt] at h
        | cons y ys => simp [charListLt]
      | cons x xs ih =>
        intro y h
        cases y with
        | nil => simp [charListLt] at h
        | cons y ys =>
          simp only [charListLt] at h ⊢
          by_cases hxy : x = y
          · subst hxy
            simp only [if_pos rfl] at h ⊢
            exact ih ys h
          · simp only [if_neg hxy, decide_eq_true_eq] at h
            have hyx : ¬ (y = x) := fun he => hxy he.symm
            simp only [if_neg hyx, decide_eq_false_iff_not]
            exact not_lt_of_gt h
    exact main a.data b.data h
  ltB_tricho a b h1 h2 := by
    have main : ∀ x y : List Char, charListLt x y = false → charListLt y x = false → x = y := by
      intro x
      induction x with
      | nil =>
        intro y h1 h2
        cases y with
        | nil => rfl
        | cons y ys => simp [charListLt] at h1
      | cons x xs ih =>
        intro y h1 h2
        cases y with
        | nil => simp [charListLt] at h2
        | cons y ys =>
          simp only [charListLt] at h1 h2
          by_cases hxy : x = y
          · subst hxy
            simp only [if_pos rfl] at h1 h2
            rw [ih ys h1 h2]
          · simp only [if_neg hxy, decide_eq_false_iff_not] at h1
            have hyx : ¬ (y = x) := fun he => hxy he.symm
            simp only [if_neg hyx, decide_eq_false_iff_not] at h2
            rcases lt_or_gt_of_ne hxy with hlt | hgt
            · exact absurd hlt h1
            · exact absurd hgt h2
    have h := main a.data b.data h1 h2
    cases a
    cases b
    exact congrArg String.mk h


/-- One component of a lexicographic comparison: equal components defer
to the remaining components, different ones decide strictly. -/
def lexStep {α : Type} [DecidableEq α] [DecLinOrd α] (a b : α) (tail : Bool) : Bool :=
  if a = b then tail else DecLinOrd.ltB a b

/-- Non-strict comparison on the last component. -/
def leB {α : Type} [DecidableEq α] [DecLinOrd α] (a b : α) : Bool :=
  decide (a = b) || DecLinOrd.ltB a b

/-- Lexicographic non-strict comparison of 4-component sort keys; this
is the row order produced by a multi-column ascending
`DataFrame.sort_values`. -/
def lex4 {α β γ δ : Type} [DecidableEq α] [DecidableEq β] [DecidableEq γ] [DecidableEq δ]
    [DecLinOrd α] [DecLinOrd β] [DecLinOrd γ] [DecLinOrd δ]
    (k j : α × β × γ × δ) : Bool :=
  lexStep k.1 j.1 (lexStep k.2.1 j.2.1 (lexStep k.2.2.1 j.2.2.1 (leB k.2.2.2 j.2.2.2)))

/-- Stable insertion into a sorted list: the new element goes after
every existing element it does not strictly precede. -/
def sInsert {α : Type} (le : α → α → Bool) (x : α) : List α → List α
  | [] => [x]
  | y :: ys => if le x y then x :: y :: ys else y :: sInsert le x ys

/-- Stable insertion sort; a stable sort by a key function produces the
same list as the stable multi-column sort pandas performs, so this
models `DataFrame.sort_values` on the same key. -/
def sortGen {α : Type} (le : α → α → Bool) : List α → List α
  | [] => []
  | x :: xs => sInsert le x (sortGen le xs)

/-- Sorting position of a nullable date column: `pd.sort_values` puts
NaT rows last (default `na_position`), which the flag component 1
encodes. -/
def dateFlag : Option Nat → Nat
  | none => 1
  | some _ => 0

/-- Value component of the nullable date sort key. -/
def dateVal : Option Nat → Nat
  | none => 0
  | some d => d

/-- The sort key used at `sort_values(["fecha", "conductor", "tramo"])`:
date first, then driver, then direction, each ascending. -/
def legKey (l : Leg) : Nat × Nat × String × String :=
  (dateFlag l.fecha, dateVal l.fecha, l.conductor, l.tramo)

/-- Row comparison implementing the source sort order
(date, driver, direction). -/
def legLe (a b : Leg) : Bool := lex4 (legKey a) (legKey b)

/-- Rank of a direction under the order the spec prescribes
(Outbound/Ida before Return/Vuelta). -/
def dirRank (t : String) : Nat := if t = "Ida" then 0 else 1

/-- Modelled from the spec: the sort key the spec claims for `list`,
namely (date, direction, driver) with Outbound before Return.  Kept
separate from `legKey` so the two orders can be compared. -/
def specLegKey (l : Leg) : Nat × Nat × Nat × String :=
  (dateFlag l.fecha, dateVal l.fecha, dirRank l.tramo, l.conductor)

/-- Modelled from the spec: row comparison under the claimed
(date, direction, driver) order. -/
def specListOrderLe (a b : Leg) : Bool := lex4 (specLegKey a) (specLegKey b)

/-- The `desde` filter `_df["fecha"] >= desde`: absent bound passes
everything, a NaT date compares False against a bound. -/
def matchFrom (desde : Option Nat) (f : Option Nat) : Bool :=
  match desde with
  | none => true
  | some d =>
    match f with
    | none => false
    | some fd => decide (d ≤ fd)

/-- The `hasta` filter `_df["fecha"] <= hasta`. -/
def matchTo (hasta : Option Nat) (f : Option Nat) : Bool :=
  match hasta with
  | none => true
  | some d =>
    match f with
    | none => false
    | some fd => decide (fd ≤ d)

/-- The history filters (lines 426-431): inclusive date bounds when
present, and the driver multiselect applied only when non-empty
(`if filtro_conductor:`). -/
def applyFilters (legs : List Leg) (desde hasta : Option Nat) (drivers : List String) : List Leg :=
  if drivers.isEmpty then
    (legs.filter (fun l => matchFrom desde l.fecha)).filter (fun l => matchTo hasta l.fecha)
  else
    ((legs.filter (fun l => matchFrom desde l.fecha)).filter
      (fun l => matchTo hasta l.fecha)).filter (fun l => drivers.contains l.conductor)

/-- The displayed history `_df`: filters then the stable
`sort_values(["fecha", "conductor", "tramo"])`. -/
def historial (legs : List Leg) (desde hasta : Option Nat) (drivers : List String) : List Leg :=
  sortGen legLe (applyFilters legs desde hasta drivers)

/-- Non-strict string comparison for sorted groupby keys. -/
def strLeB (a b : String) : Bool := decide (a = b) || strLtB a b

/-- Ascending sort of strings, matching the sorted group keys a pandas
`groupby` emits. -/
def sortStrings (l : List String) : List String := sortGen strLeB l

/-- The Excel export sheet `Resumen Conductor`:
`df.groupby("conductor")["monto_al_conductor"].sum()` — one row per
driver appearing in the data, keys sorted, no roster reindexing. -/
def sum_c_table (legs : List Leg) : List (String × Int) :=
  (sortStrings ((legs.map (fun l => l.conductor)).dedup)).map (fun c => (c, driverTotal legs c))

/-- The Excel export sheet `Resumen Persona`:
`expl.groupby("pasajero")["monto"].sum()` — one row per passenger
appearing in the exploded rows (NaN key dropped), keys sorted, and no
roster reindexing. -/
def excel_sum_persona (legs : List Leg) : List (String × Int) :=
  (sortStrings (((explodePasajeros legs).filterMap (fun e => e.pasajero)).dedup)).map
    (fun p => (p, owedTo (explodePasajeros legs) p))

/-- The in-memory application state: `st.session_state.data` and
`st.session_state.next_id`. -/
structure AppState where
  data : List Leg
  next_id : Int
  deriving DecidableEq

/-- Sequential id assignment of `_append_rows` / the import id
reassignment: ids `n, n+1, ...` in row order. -/
def assignIds (n : Int) : List Leg → List Leg
  | [] => []
  | l :: ls => { l with id := some n } :: assignIds (n + 1) ls

/-- `_append_rows`: assign autoincremented ids starting at `next_id`,
append at the end of the frame, advance the counter. -/
def appendRows (s : AppState) (rows : List Leg) : AppState :=
  { data := s.data ++ assignIds s.next_id rows
    next_id := s.next_id + rows.length }

/-- One row built by the `Agregar al registro` handler:
`n_pasajeros = len(pasajeros)` and
`monto_al_conductor = tarifa * n_pasajeros`; the id is filled in later
by `_append_rows`. -/
def mkRow (fecha : Nat) (conductor : String) (tramo : String) (pasajeros : List String)
    (tarifa : Int) : Leg :=
  { id := none
    fecha := some fecha
    conductor := conductor
    tramo := tramo
    pasajeros := some (String.intercalate ";" pasajeros)
    tarifa_por_tramo := tarifa
    n_pasajeros := pasajeros.length
    monto_al_conductor := tarifa * pasajeros.length }

/-- The passenger options of the add form: every roster member except
the driver, unless the include-driver flag admits the driver too. -/
def opcionesPasajeros (incluirConductor : Bool) (conductor : String) : List String :=
  PARTICIPANTES.filter (fun p => incluirConductor || p != conductor)

/-- The `Agregar al registro` handler: reject only when zero passengers
are selected; otherwise build one leg, or two legs for
`Ida y Vuelta`, and append them. -/
def addRegistro (s : AppState) (fecha : Nat) (conductor : String) (tipo : String)
    (tarifa : Int) (pasajeros : List String) : AppState :=
  if pasajeros.length = 0 then s
  else
    appendRows s ((if tipo = "Ida y Vuelta" then ["Ida", "Vuelta"] else [tipo]).map
      (fun leg => mkRow fecha conductor leg pasajeros tarifa))

/-- The id normalization run on every rerun before delete/edit (lines
439-440): `pd.to_numeric(...).fillna(0).astype(int)`, i.e. a missing id
becomes 0. -/
def coerceIds (legs : List Leg) : List Leg :=
  legs.map (fun l => { l with id := some (l.id.getD 0) })

/-- The `Eliminar seleccionadas` handler: with a non-empty selection,
drop every row whose id is selected; an empty selection does nothing
(the `and sel_del` guard). -/
def eliminarFilas (s : AppState) (sel : List Int) : AppState :=
  if sel.isEmpty then s
  else { s with data := (coerceIds s.data).filter (fun l => !(sel.contains (l.id.getD 0))) }

/-- The field rewrite of the `Guardar cambios` handler: all columns
except `id` are overwritten, with `n_pasajeros = len(e_pasajeros)` and
`monto_al_conductor = e_tarifa * n_pasajeros` recomputed from the edited
values. -/
def applyEdit (efecha : Nat) (econductor etramo : String) (etarifa : Int)
    (epasajeros : List String) (l : Leg) : Leg :=
  { l with
    fecha := some efecha
    conductor := econductor
    tramo := etramo
    pasajeros := some (String.intercalate ";" epasajeros)
    tarifa_por_tramo := etarifa
    n_pasajeros := epasajeros.length
    monto_al_conductor := etarifa * epasajeros.length }

/-- Rewrite of the first row matching an id, the effect of
`data.index[data["id"] == edit_id][0]` followed by the `loc` write. -/
def updateFirst (editId : Int) (f : Leg → Leg) : List Leg → List Leg
  | [] => []
  | l :: ls => if l.id = some editId then f l :: ls else l :: updateFirst editId f ls

/-- The `Guardar cambios` handler on the application state. -/
def guardarCambios (s : AppState) (editId : Int) (efecha : Nat)
    (econductor etramo : String) (etarifa : Int) (epasajeros : List String) : AppState :=
  { s with data := updateFirst editId (applyEdit efecha econductor etramo etarifa epasajeros) s.data }

/-- Maximum of an integer list, seeded by the head as `Series.max` is. -/
def listMaxInt : List Int → Int
  | [] => 0
  | x :: xs => xs.foldl max x

/-- The `Cargar CSV en memoria` handler: clean the rows; if the id
column is entirely NA, assign fresh ids starting at the current
`next_id` and advance it by the row count; otherwise adopt the imported
ids (NA ids treated as 0 in the maximum) and advance `next_id` past the
maximum seen.  The second `_clean_df` call of the source is the
identity on already-cleaned rows. -/
def importCSV (s : AppState) (raw : List RawRow) : AppState :=
  if (cleanDF raw).all (fun l => decide (l.id = none)) then
    { data := assignIds s.next_id (cleanDF raw)
      next_id := s.next_id + (cleanDF raw).length }
  else
    { data := cleanDF raw
      next_id := max s.next_id (listMaxInt ((cleanDF raw).map (fun l => l.id.getD 0)) + 1) }

end Papudo

namespace Papudo

theorem ltB_total_of_ne {α : Type} [DecLinOrd α] {a b : α} (h : a ≠ b) :
    DecLinOrd.ltB a b = true ∨ DecLinOrd.ltB b a = true := by
  cases hab : DecLinOrd.ltB a b with
  | true => exact Or.inl rfl
  | false =>
    cases hba : DecLinOrd.ltB b a with
    | true => exact Or.inr rfl
    | false => exact absurd (DecLinOrd.ltB_tricho a b hab hba) h

theorem leB_refl {α : Type} [DecidableEq α] [DecLinOrd α] (a : α) : leB a a = true := by
  simp [leB]

theorem leB_total {α : Type} [DecidableEq α] [DecLinOrd α] (a b : α) :
    leB a b = true ∨ leB b a = true := by
  by_cases h : a = b
  · subst h
    exact Or.inl (leB_refl a)
  · rcases ltB_total_of_ne h with h1 | h1
    · exact Or.inl (by simp [leB, h1])
    · exact Or.inr (by simp [leB, h1])

theorem leB_trans {α : Type} [DecidableEq α] [DecLinOrd α] (a b c : α)
    (h1 : leB a b = true) (h2 : leB b c = true) : leB a c = true := by
  simp only [leB, Bool.or_eq_true, decide_eq_true_eq] at h1 h2 ⊢
  rcases h1 with h1 | h1
  · subst h1
    exact h2
  · rcases h2 with h2 | h2
    · subst h2
      exact Or.inr h1
    · exact Or.inr (DecLinOrd.ltB_trans a b c h1 h2)

theorem lexStep_refl {α : Type} [DecidableEq α] [DecLinOrd α] (a : α) (t : Bool) :
    lexStep a a t = t := by
  simp [lexStep]

theorem lexStep_trans {α : Type} [DecidableEq α] [DecLinOrd α] (a b c : α)
    (tab tbc tac : Bool) (htail : tab = true → tbc = true → tac = true)
    (h1 : lexStep a b tab = true) (h2 : lexStep b c tbc = true) :
    lexStep a c tac = true := by
  by_cases hab : a = b
  · subst hab
    rw [lexStep_refl] at h1
    by_cases hac : a = c
    · subst hac
      rw [lexStep_refl] at h2 ⊢
      exact htail h1 h2
    · simp only [lexStep, if_neg hac] at h2 ⊢
      exact h2
  · simp only [lexStep, if_neg hab] at h1
    by_cases hbc : b = c
    · subst hbc
      simp only [lexStep, if_neg hab]
      exact h1
    · simp only [lexStep, if_neg hbc] at h2
      have hlt := DecLinOrd.ltB_trans a b c h1 h2
      have hac : a ≠ c := by
        intro he
        subst he
        have := DecLinOrd.ltB_asymm a b h1
        rw [this] at h2
        exact Bool.false_ne_true h2
      simp only [lexStep, if_neg hac]
      exact hlt

theorem lexStep_total {α : Type} [DecidableEq α] [DecLinOrd α] (a b : α)
    (tab tba : Bool) (htail : tab = true ∨ tba = true) :
    lexStep a b tab = true ∨ lexStep b a tba = true := by
  by_cases hab : a = b
  · subst hab
    rw [lexStep_refl, lexStep_refl]
    exact htail
  · have hba : b ≠ a := fun he => hab he.symm
    simp only [lexStep, if_neg hab, if_neg hba]
    exact ltB_total_of_ne hab

theorem lex4_refl {α β γ δ : Type} [DecidableEq α] [DecidableEq β] [DecidableEq γ] [DecidableEq δ]
    [DecLinOrd α] [DecLinOrd β] [DecLinOrd γ] [DecLinOrd δ]
    (k : α × β × γ × δ) : lex4 k k = true := by
  simp [lex4, lexStep_refl, leB_refl]

theorem lex4_of_eq {α β γ δ : Type} [DecidableEq α] [DecidableEq β] [DecidableEq γ] [DecidableEq δ]
    [DecLinOrd α] [DecLinOrd β] [DecLinOrd γ] [DecLinOrd δ]
    {k j : α × β × γ × δ} (h : k = j) : lex4 k j = true := by
  subst h
  exact lex4_refl k

theorem lex4_trans {α β γ δ : Type} [DecidableEq α] [DecidableEq β] [DecidableEq γ] [DecidableEq δ]
    [DecLinOrd α] [DecLinOrd β] [DecLinOrd γ] [DecLinOrd δ]
    (k j m : α × β × γ × δ) (h1 : lex4 k j = true) (h2 : lex4 j m = true) :
    lex4 k m = true := by
  refine lexStep_trans k.1 j.1 m.1 _ _ _ (fun p1 p2 => ?_) h1 h2
  refine lexStep_trans k.2.1 j.2.1 m.2.1 _ _ _ (fun q1 q2 => ?_) p1 p2
  refine lexStep_trans k.2.2.1 j.2.2.1 m.2.2.1 _ _ _ (fun r1 r2 => ?_) q1 q2
  exact leB_trans _ _ _ r1 r2

theorem lex4_total {α β γ δ : Type} [DecidableEq α] [DecidableEq β] [DecidableEq γ] [DecidableEq δ]
    [DecLinOrd α] [DecLinOrd β] [DecLinOrd γ] [DecLinOrd δ]
    (k j : α × β × γ × δ) : lex4 k j = true ∨ lex4 j k = true := by
  refine lexStep_total k.1 j.1 _ _ ?_
  refine lexStep_total k.2.1 j.2.1 _ _ ?_
  refine lexStep_total k.2.2.1 j.2.2.1 _ _ ?_
  exact leB_total _ _

theorem sInsert_perm {α : Type} (le : α → α → Bool) (x : α) (l : List α) :
    List.Perm (sInsert le x l) (x :: l) := by
  induction l with
  | nil => rfl
  | cons y ys ih =>
    simp only [sInsert]
    by_cases h : le x y = true
    · rw [if_pos h]
    · rw [if_neg h]
      exact List.Perm.trans (List.Perm.cons y ih) (List.Perm.swap x y ys)

theorem sortGen_perm {α : Type} (le : α → α → Bool) (l : List α) :
    List.Perm (sortGen le l) l := by
  induction l with
  | nil => rfl
  | cons x xs ih =>
    exact List.Perm.trans (sInsert_perm le x (sortGen le xs)) (List.Perm.cons x ih)

theorem mem_sInsert {α : Type} (le : α → α → Bool) (x z : α) (l : List α) :
    z ∈ sInsert le x l ↔ z = x ∨ z ∈ l := by
  constructor
  · intro h
    have := (sInsert_perm le x l).mem_iff.mp h
    simpa using this
  · intro h
    apply (sInsert_perm le x l).mem_iff.mpr
    simpa using h

theorem sInsert_sorted {α : Type} (le : α → α → Bool)
    (htot : ∀ a b, le a b = true ∨ le b a = true)
    (htrans : ∀ a b c, le a b = true → le b c = true → le a c = true)
    (x : α) (l : List α) (h : l.Pairwise (fun a b => le a b = true)) :
    (sInsert le x l).Pairwise (fun a b => le a b = true) := by
  induction l with
  | nil => simp [sInsert]
  | cons y ys ih =>
    rw [List.pairwise_cons] at h
    simp only [sInsert]
    by_cases hxy : le x y = true
    · rw [if_pos hxy]
      rw [List.pairwise_cons]
      constructor
      · intro z hz
        rcases List.mem_cons.mp hz with hz | hz
        · subst hz
          exact hxy
        · exact htrans x y z hxy (h.1 z hz)
      · rw [List.pairwise_cons]
        exact h
    · rw [if_neg hxy]
      rw [List.pairwise_cons]
      constructor
      · intro z hz
        rcases (mem_sInsert le x z ys).mp hz with hz | hz
        · subst hz
          rcases htot z y with h1 | h1
          · exact absurd h1 hxy
          · exact h1
        · exact h.1 z hz
      · exact ih h.2

theorem sortGen_sorted {α : Type} (le : α → α → Bool)
    (htot : ∀ a b, le a b = true ∨ le b a = true)
    (htrans : ∀ a b c, le a b = true → le b c = true → le a c = true)
    (l : List α) : (sortGen le l).Pairwise (fun a b => le a b = true) := by
  induction l with
  | nil => simp [sortGen]
  | cons x xs ih => exact sInsert_sorted le htot htrans x (sortGen le xs) ih

theorem sInsert_filter_keyeq {α κ : Type} [DecidableEq κ] (le : α → α → Bool) (kf : α → κ)
    (hrefl : ∀ a b, kf a = kf b → le a b = true)
    (x : α) (l : List α) (k0 : κ) (hx : kf x = k0) :
    (sInsert le x l).filter (fun a => decide (kf a = k0)) =
      x :: l.filter (fun a => decide (kf a = k0)) := by
  induction l with
  | nil =>
    simp only [sInsert, List.filter_cons, List.filter_nil]
    rw [if_pos (by simpa using hx)]
  | cons y ys ih =>
    simp only [sInsert]
    by_cases hxy : le x y = true
    · rw [if_pos hxy]
      rw [List.filter_cons]
      rw [if_pos (by simpa using hx)]
    · rw [if_neg hxy]
      have hky : kf y ≠ k0 := by
        intro he
        exact hxy (hrefl x y (by rw [hx, he]))
      rw [List.filter_cons, List.filter_cons]
      rw [if_neg (by simpa using hky), if_neg (by simpa using hky)]
      exact ih

theorem sInsert_filter_keyne {α κ : Type} [DecidableEq κ] (le : α → α → Bool) (kf : α → κ)
    (x : α) (l : List α) (k0 : κ) (hx : kf x ≠ k0) :
    (sInsert le x l).filter (fun a => decide (kf a = k0)) =
      l.filter (fun a => decide (kf a = k0)) := by
  induction l with
  | nil =>
    simp only [sInsert, List.filter_cons, List.filter_nil]
    rw [if_neg (by simpa using hx)]
  | cons y ys ih =>
    simp only [sInsert]
    by_cases hxy : le x y = true
    · rw [if_pos hxy]
      rw [List.filter_cons]
      rw [if_neg (by simpa using hx)]
    · rw [if_neg hxy]
      rw [List.filter_cons, List.filter_cons]
      by_cases hky : kf y = k0
      · rw [if_pos (by simpa using hky), if_pos (by simpa using hky), ih]
      · rw [if_neg (by simpa using hky), if_neg (by simpa using hky)]
        exact ih

/-- Stability of the insertion sort: the elements sharing any fixed sort
key keep their original relative order. -/
theorem sortGen_stable {α κ : Type} [DecidableEq κ] (le : α → α → Bool) (kf : α → κ)
    (hrefl : ∀ a b, kf a = kf b → le a b = true)
    (l : List α) (k0 : κ) :
    (sortGen le l).filter (fun a => decide (kf a = k0)) =
      l.filter (fun a => decide (kf a = k0)) := by
  induction l with
  | nil => rfl
  | cons x xs ih =>
    simp only [sortGen]
    by_cases hx : kf x = k0
    · rw [sInsert_filter_keyeq le kf hrefl x (sortGen le xs) k0 hx, ih]
      rw [List.filter_cons, if_pos (by simpa using hx)]
    · rw [sInsert_filter_keyne le kf x (sortGen le xs) k0 hx, ih]
      rw [List.filter_cons, if_neg (by simpa using hx)]

theorem sum_map_constInt {α : Type} (l : List α) (m : Int) :
    (l.map (fun _ => m)).sum = (l.length : Int) * m := by
  induction l with
  | nil => simp
  | cons x xs ih =>
    simp only [List.map_cons, List.sum_cons, List.length_cons, ih]
    push_cast
    ring

theorem sum_map_add {α : Type} (R : List α) (f g : α → Int) :
    (R.map (fun p => f p + g p)).sum = (R.map f).sum + (R.map g).sum := by
  induction R with
  | nil => simp
  | cons q R ih =>
    simp only [List.map_cons, List.sum_cons, ih]
    ring

theorem sum_map_sub {α : Type} (R : List α) (f g : α → Int) :
    (R.map (fun p => f p - g p)).sum = (R.map f).sum - (R.map g).sum := by
  induction R with
  | nil => simp
  | cons q R ih =>
    simp only [List.map_cons, List.sum_cons, ih]
    ring

/-- Summing an indicator over a list of keys counts the occurrences of
the key. -/
theorem sum_map_ite (R : List String) (c : String) (m : Int) :
    (R.map (fun p => if c = p then m else 0)).sum = (R.count c : Int) * m := by
  induction R with
  | nil => simp
  | cons q R ih =>
    simp only [List.map_cons, List.sum_cons, List.count_cons, ih]
    by_cases h : c = q
    · have hb : (q == c) = true := by simp [h.symm]
      rw [if_pos h, hb]
      simp only [if_true]
      push_cast
      ring
    · have hb : (q == c) = false := by
        simp only [beq_eq_false_iff_ne, ne_eq]
        exact fun he => h he.symm
      rw [if_neg h, hb]
      simp only [Bool.false_eq_true, if_false]
      push_cast
      ring

theorem count_eq_one_of_nodup_mem {R : List String} {c : String}
    (hnd : R.Nodup) (h : c ∈ R) : R.count c = 1 := by
  have h1 : R.count c ≤ 1 := List.nodup_iff_count_le_one.mp hnd c
  have h2 : 0 < R.count c := List.count_pos_iff.mpr h
  omega

theorem driverTotal_cons (l : Leg) (ls : List Leg) (c : String) :
    driverTotal (l :: ls) c =
      (if l.conductor = c then l.monto_al_conductor else 0) + driverTotal ls c := by
  simp only [driverTotal, List.filter_cons]
  by_cases h : l.conductor = c
  · rw [if_pos (by simpa using h), if_pos h]
    simp
  · rw [if_neg (by simpa using h), if_neg h]
    simp

theorem owedTo_cons (e : ExplRow) (expl : List ExplRow) (p : String) :
    owedTo (e :: expl) p =
      (if e.pasajero = some p then e.monto else 0) + owedTo expl p := by
  simp only [owedTo, List.filter_cons]
  by_cases h : e.pasajero = some p
  · rw [if_pos (by simpa using h), if_pos h]
    simp
  · rw [if_neg (by simpa using h), if_neg h]
    simp

/-- Grouping the driver column over any duplicate-free key list that
covers every driver recovers the full `monto_al_conductor` column sum. -/
theorem sum_roster_driverTotal (R : List String) (hnd : R.Nodup) (legs : List Leg)
    (h : ∀ l ∈ legs, l.conductor ∈ R) :
    (R.map (fun p => driverTotal legs p)).sum =
      (legs.map (fun l => l.monto_al_conductor)).sum := by
  induction legs with
  | nil => simp [driverTotal]
  | cons l ls ih =>
    have h1 : l.conductor ∈ R := h l (by simp)
    have h2 : ∀ x ∈ ls, x.conductor ∈ R := fun x hx => h x (List.mem_cons_of_mem _ hx)
    simp only [driverTotal_cons]
    rw [sum_map_add R (fun p => if l.conductor = p then l.monto_al_conductor else 0)
      (fun p => driverTotal ls p)]
    rw [sum_map_ite R l.conductor l.monto_al_conductor]
    rw [count_eq_one_of_nodup_mem hnd h1, ih h2]
    simp

/-- Grouping the exploded `monto` column by passenger over any
duplicate-free key list that covers every non-NaN passenger recovers the
allocation column sum (NaN-keyed rows are dropped by the groupby). -/
theorem sum_roster_owedTo (R : List String) (hnd : R.Nodup) (expl : List ExplRow)
    (h : ∀ e ∈ expl, ∀ q, e.pasajero = some q → q ∈ R) :
    (R.map (fun p => owedTo expl p)).sum = (allocColumn expl).sum := by
  induction expl with
  | nil => simp [owedTo, allocColumn]
  | cons e expl ih =>
    have h2 : ∀ x ∈ expl, ∀ q, x.pasajero = some q → q ∈ R :=
      fun x hx => h x (List.mem_cons_of_mem _ hx)
    simp only [owedTo_cons]
    rw [sum_map_add R (fun p => if e.pasajero = some p then e.monto else 0)
      (fun p => owedTo expl p), ih h2]
    cases hp : e.pasajero with
    | none =>
      have : (R.map (fun p => if (none : Option String) = some p then e.monto else 0)) =
          R.map (fun _ => (0 : Int)) := by
        apply List.map_congr_left
        intro p _
        simp
      simp only [allocColumn, List.filterMap_cons, hp, this]
      simp
    | some q =>
      have h1 : q ∈ R := h e (by simp) q hp
      have : (R.map (fun p => if some q = some p then e.monto else 0)) =
          R.map (fun p => if q = p then e.monto else 0) := by
        apply List.map_congr_left
        intro p _
        simp
      rw [this, sum_map_ite R q e.monto, count_eq_one_of_nodup_mem hnd h1]
      simp only [allocColumn, List.filterMap_cons, hp]
      simp [allocColumn]

/-- The allocation column of a whole frame sums, leg by leg, to
fare times the number of parsed passengers. -/
theorem allocColumn_explode (legs : List Leg) :
    (allocColumn (explodePasajeros legs)).sum =
      (legs.map (fun l => l.tarifa_por_tramo * ((parsePasajeros l.pasajeros).length : Int))).sum := by
  induction legs with
  | nil => simp [allocColumn, explodePasajeros]
  | cons l ls ih =>
    have happ : explodePasajeros (l :: ls) = explodeLeg l ++ explodePasajeros ls := by
      simp [explodePasajeros]
    rw [happ]
    simp only [allocColumn, List.filterMap_append, List.sum_append, List.map_cons, List.sum_cons]
    have hleg : ((explodeLeg l).filterMap (fun e => e.pasajero.map (fun _ => e.monto))).sum =
        l.tarifa_por_tramo * ((parsePasajeros l.pasajeros).length : Int) := by
      cases hp : parsePasajeros l.pasajeros with
      | nil =>
        simp [explodeLeg, hp]
      | cons p ps =>
        simp only [explodeLeg, hp]
        have hcomp : ((fun e : ExplRow => e.pasajero.map (fun _ => e.monto)) ∘
            (fun q : String =>
              ExplRow.mk l.fecha l.conductor l.tramo (some q) l.tarifa_por_tramo)) =
            some ∘ (fun _ : String => l.tarifa_por_tramo) := by
          funext q
          rfl
        rw [List.filterMap_map, hcomp, List.filterMap_eq_map, sum_map_constInt]
        ring
    rw [hleg]
    exact congrArg (fun t => l.tarifa_por_tramo * ((parsePasajeros l.pasajeros).length : Int) + t) ih

theorem sum_c_table_total (legs : List Leg) :
    ((sum_c_table legs).map Prod.snd).sum = (legs.map (fun l => l.monto_al_conductor)).sum := by
  have hperm : List.Perm ((sum_c_table legs).map Prod.snd)
      ((((legs.map (fun l => l.conductor)).dedup).map
        (fun c => (c, driverTotal legs c))).map Prod.snd) :=
    List.Perm.map Prod.snd (List.Perm.map _ (sortGen_perm _ _))
  rw [List.Perm.sum_eq hperm, List.map_map]
  have h2 : (((legs.map (fun l => l.conductor)).dedup).map
      (Prod.snd ∘ (fun c => (c, driverTotal legs c)))) =
      ((legs.map (fun l => l.conductor)).dedup).map (fun c => driverTotal legs c) := rfl
  rw [h2]
  apply sum_roster_driverTotal _ (List.nodup_dedup _) legs
  intro l hl
  exact List.mem_dedup.mpr (List.mem_map_of_mem _ hl)

theorem excel_sum_persona_total (legs : List Leg) :
    ((excel_sum_persona legs).map Prod.snd).sum = (allocColumn (explodePasajeros legs)).sum := by
  have hperm : List.Perm ((excel_sum_persona legs).map Prod.snd)
      (((((explodePasajeros legs).filterMap (fun e => e.pasajero)).dedup).map
        (fun p => (p, owedTo (explodePasajeros legs) p))).map Prod.snd) :=
    List.Perm.map Prod.snd (List.Perm.map _ (sortGen_perm _ _))
  rw [List.Perm.sum_eq hperm, List.map_map]
  have h2 : ((((explodePasajeros legs).filterMap (fun e => e.pasajero)).dedup).map
      (Prod.snd ∘ (fun p => (p, owedTo (explodePasajeros legs) p)))) =
      (((explodePasajeros legs).filterMap (fun e => e.pasajero)).dedup).map
        (fun p => owedTo (explodePasajeros legs) p) := rfl
  rw [h2]
  apply sum_roster_owedTo _ (List.nodup_dedup _) (explodePasajeros legs)
  intro e he q hq
  exact List.mem_dedup.mpr (List.mem_filterMap.mpr ⟨e, he, hq⟩)

/-- Every passenger key of an exploded row comes from the parsed
passenger list of one of the legs. -/
theorem mem_explode_pasajero {legs : List Leg} {e : ExplRow} {q : String}
    (he : e ∈ explodePasajeros legs) (hq : e.pasajero = some q) :
    ∃ l ∈ legs, q ∈ parsePasajeros l.pasajeros := by
  rcases List.mem_flatMap.mp he with ⟨l, hl, hel⟩
  refine ⟨l, hl, ?_⟩
  cases hp : parsePasajeros l.pasajeros with
  | nil =>
    simp only [explodeLeg, hp] at hel
    rcases List.mem_singleton.mp hel with rfl
    simp at hq
  | cons p ps =>
    simp only [explodeLeg, hp] at hel
    rcases List.mem_map.mp hel with ⟨r, hr, he2⟩
    rcases he2.symm with rfl
    simp only at hq
    rcases Option.some_inj.mp hq with rfl
    exact hr

end Papudo

namespace Papudo

/-- Claim C1 counterexample: the zero-sum equation fails for a
collection containing an imported, cleaned leg whose stored
`monto_al_conductor` (999) disagrees with
`tarifa_por_tramo * number of listed passengers` (1250 times 1);
`_clean_df` keeps the inconsistent stored amount, so the roster-summed
net balance is -251, not 0. -/
theorem C1_zero_sum_counterexample :
    (PARTICIPANTES.map (fun p => netBalance (cleanDF
      [RawRow.mk none (some 20250101) "Wilson" "Ida" (some "Paula") (some 1250) (some 1)
        (some 999)]) p)).sum ≠ 0 := by decide

/-- Claim C1 (amended): for every collection of legs whose stored
`monto_al_conductor` equals `tarifa_por_tramo` times the number of
parsed passengers (true of every leg the add handler creates, but not
enforced by import cleaning) and whose drivers and passengers all lie in
the configured roster, the roster sum of net balances is zero, and the
grand total of the per-driver table equals the grand total of the
per-person owed table. -/
theorem C1_zero_sum_amended (legs : List Leg)
    (hcons : ∀ l ∈ legs,
      l.monto_al_conductor = l.tarifa_por_tramo * ((parsePasajeros l.pasajeros).length : Int))
    (hros : ∀ l ∈ legs, l.conductor ∈ PARTICIPANTES ∧
      ∀ q ∈ parsePasajeros l.pasajeros, q ∈ PARTICIPANTES) :
    (PARTICIPANTES.map (fun p => netBalance legs p)).sum = 0 ∧
    ((sum_c_table legs).map Prod.snd).sum = ((excel_sum_persona legs).map Prod.snd).sum := by
  have hnd : PARTICIPANTES.Nodup := by decide
  have hmonto : (legs.map (fun l => l.monto_al_conductor)).sum =
      (legs.map (fun l =>
        l.tarifa_por_tramo * ((parsePasajeros l.pasajeros).length : Int))).sum := by
    rw [List.map_congr_left hcons]
  have hpass : ∀ e ∈ explodePasajeros legs, ∀ q, e.pasajero = some q → q ∈ PARTICIPANTES := by
    intro e he q hq
    rcases mem_explode_pasajero he hq with ⟨l, hl, hql⟩
    exact (hros l hl).2 q hql
  constructor
  · have h1 : (fun p => netBalance legs p) =
        (fun p => driverTotal legs p - owedTo (explodePasajeros legs) p) := rfl
    rw [h1, sum_map_sub,
      sum_roster_driverTotal PARTICIPANTES hnd legs (fun l hl => (hros l hl).1),
      sum_roster_owedTo PARTICIPANTES hnd (explodePasajeros legs) hpass,
      allocColumn_explode, hmonto]
    ring
  · rw [sum_c_table_total, excel_sum_persona_total, allocColumn_explode, hmonto]

/-- Claim C1 witness: a concrete round trip created through the add
handler satisfies both amended conclusions. -/
theorem C1_zero_sum_amended_witness :
    (PARTICIPANTES.map (fun p => netBalance (addRegistro (AppState.mk [] 1) 20250110 "Wilson"
      "Ida y Vuelta" 1250 ["Paula", "JP"]).data p)).sum = 0 ∧
    ((sum_c_table (addRegistro (AppState.mk [] 1) 20250110 "Wilson"
      "Ida y Vuelta" 1250 ["Paula", "JP"]).data).map Prod.snd).sum =
    ((excel_sum_persona (addRegistro (AppState.mk [] 1) 20250110 "Wilson"
      "Ida y Vuelta" 1250 ["Paula", "JP"]).data).map Prod.snd).sum :=
  C1_zero_sum_amended _ (by decide) (by decide)

/-- Claim C2: submitting the add form with direction `Ida y Vuelta`,
date 2025-01-10, driver Wilson, passengers Paula and JP and fare 1250 on
an empty store creates exactly two legs — one Ida, one Vuelta — sharing
date, driver, passenger list and fare, with fresh distinct ids 1 and 2,
each with amount 1250 times 2 = 2500; Wilson's driver total is 5000,
Paula and JP each owe 2500, and the (Paula, Wilson) matrix cell is
2500. -/
theorem C2_round_trip_creation :
    ((addRegistro (AppState.mk [] 1) 20250110 "Wilson" "Ida y Vuelta" 1250
        ["Paula", "JP"]).data.map
      (fun l => (l.id, l.fecha, l.conductor, l.tramo, l.pasajeros, l.tarifa_por_tramo,
        l.monto_al_conductor)) =
      [(some 1, some 20250110, "Wilson", "Ida", some "Paula;JP", 1250, 2500),
       (some 2, some 20250110, "Wilson", "Vuelta", some "Paula;JP", 1250, 2500)]) ∧
    driverTotal (addRegistro (AppState.mk [] 1) 20250110 "Wilson" "Ida y Vuelta" 1250
      ["Paula", "JP"]).data "Wilson" = 5000 ∧
    owedTo (explodePasajeros (addRegistro (AppState.mk [] 1) 20250110 "Wilson" "Ida y Vuelta"
      1250 ["Paula", "JP"]).data) "Paula" = 2500 ∧
    owedTo (explodePasajeros (addRegistro (AppState.mk [] 1) 20250110 "Wilson" "Ida y Vuelta"
      1250 ["Paula", "JP"]).data) "JP" = 2500 ∧
    matrixEntry (explodePasajeros (addRegistro (AppState.mk [] 1) 20250110 "Wilson"
      "Ida y Vuelta" 1250 ["Paula", "JP"]).data) "Paula" "Wilson" = 2500 :=
  ⟨by rfl, by decide, by decide, by decide, by decide⟩

/-- Claim C3: allocation is a pure function of the single leg — it
yields exactly one (passenger, amount) entry per passenger listed on the
leg, each with amount equal to that leg's own `farePerLeg`
(`tarifa_por_tramo`), independent of the number of co-passengers and of
the stored `monto_al_conductor` (changing that field does not change the
allocation). -/
theorem C3_allocation_rule : ∀ l : Leg,
    allocate l = (parsePasajeros l.pasajeros).map (fun p => (p, l.tarifa_por_tramo)) ∧
    ∀ m : Int, allocate { l with monto_al_conductor := m } = allocate l := by
  intro l
  constructor
  · cases hp : parsePasajeros l.pasajeros with
    | nil => simp [allocate, explodeLeg, hp]
    | cons p ps =>
      simp only [allocate, explodeLeg, hp]
      have hcomp : ((fun e : ExplRow => e.pasajero.map (fun q => (q, e.monto))) ∘
          (fun q : String =>
            ExplRow.mk l.fecha l.conductor l.tramo (some q) l.tarifa_por_tramo)) =
          some ∘ (fun q : String => (q, l.tarifa_por_tramo)) := by
        funext q
        rfl
      rw [List.filterMap_map, hcomp, List.filterMap_eq_map]
  · intro m
    rfl

theorem explodePasajeros_append (a b : List Leg) :
    explodePasajeros (a ++ b) = explodePasajeros a ++ explodePasajeros b := by
  simp [explodePasajeros]

theorem explodePasajeros_cons (l : Leg) (ls : List Leg) :
    explodePasajeros (l :: ls) = explodeLeg l ++ explodePasajeros ls := by
  simp [explodePasajeros]

theorem owedTo_append (e1 e2 : List ExplRow) (p : String) :
    owedTo (e1 ++ e2) p = owedTo e1 p + owedTo e2 p := by
  simp [owedTo, List.filter_append]

theorem matrixEntry_append (e1 e2 : List ExplRow) (p c : String) :
    matrixEntry (e1 ++ e2) p c = matrixEntry e1 p c + matrixEntry e2 p c := by
  simp [matrixEntry, List.filter_append]

theorem driverTotal_append (l1 l2 : List Leg) (c : String) :
    driverTotal (l1 ++ l2) c = driverTotal l1 c + driverTotal l2 c := by
  simp [driverTotal, List.filter_append]

/-- Claim C10: a stored leg whose `pasajeros` cell is missing or the
empty string is passed through the import cleaning unchanged; its
explosion contains no passenger-keyed row, so the leg contributes
nothing to any per-person owed total or matrix cell, while its stored
`monto_al_conductor` still counts in full toward its driver's total. -/
theorem C10_blank_passenger_rows (r : RawRow) (l : Leg) (pre post : List Leg) (p c : String)
    (hblank : l.pasajeros = none ∨ l.pasajeros = some "") :
    (cleanRow r).pasajeros = r.pasajeros ∧
    (explodeLeg l).filterMap (fun e => e.pasajero) = [] ∧
    owedTo (explodePasajeros (pre ++ l :: post)) p = owedTo (explodePasajeros (pre ++ post)) p ∧
    matrixEntry (explodePasajeros (pre ++ l :: post)) p c =
      matrixEntry (explodePasajeros (pre ++ post)) p c ∧
    driverTotal (pre ++ l :: post) l.conductor =
      l.monto_al_conductor + driverTotal (pre ++ post) l.conductor := by
  have hparse : parsePasajeros l.pasajeros = [] := by
    rcases hblank with h | h <;> rw [h] <;> rfl
  have hexp : explodeLeg l =
      [ExplRow.mk l.fecha l.conductor l.tramo none l.tarifa_por_tramo] := by
    simp [explodeLeg, hparse]
  have howed : owedTo (explodeLeg l) p = 0 := by
    rw [hexp]
    rfl
  have hmat : matrixEntry (explodeLeg l) p c = 0 := by
    rw [hexp]
    rfl
  refine ⟨rfl, by rw [hexp]; rfl, ?_, ?_, ?_⟩
  · rw [explodePasajeros_append, explodePasajeros_cons, explodePasajeros_append,
      owedTo_append, owedTo_append, owedTo_append, howed]
    ring
  · rw [explodePasajeros_append, explodePasajeros_cons, explodePasajeros_append,
      matrixEntry_append, matrixEntry_append, matrixEntry_append, hmat]
    ring
  · rw [driverTotal_append, driverTotal_cons, driverTotal_append, if_pos rfl]
    ring

/-- Claim C4 counterexample: with a single cleaned leg carrying only
Paula, the Excel export per-person sheet (`expl.groupby("pasajero")`
with no roster reindex) lists only Paula, so the roster participant JP
is missing from this produced instance of the per-person summary even
though the data is non-empty (the sheet is actually written). -/
theorem C4_roster_completeness_counterexample :
    "JP" ∈ PARTICIPANTES ∧
    cleanDF [RawRow.mk none (some 20250101) "Wilson" "Ida" (some "Paula") (some 1250) (some 1)
      (some 1250)] ≠ [] ∧
    (excel_sum_persona (cleanDF [RawRow.mk none (some 20250101) "Wilson" "Ida" (some "Paula")
      (some 1250) (some 1) (some 1250)])).map Prod.fst = ["Paula"] ∧
    "JP" ∉ (excel_sum_persona (cleanDF [RawRow.mk none (some 20250101) "Wilson" "Ida"
      (some "Paula") (some 1250) (some 1) (some 1250)])).map Prod.fst := by
  refine ⟨by decide, by decide, by decide, by decide⟩

/-- Claim C4 (amended): the displayed per-person summary (groupby then
`reindex(PARTICIPANTES, fill_value=0)`) and `_pivot_pasajero_conductor`
are roster-complete and zero-filled for every collection of legs,
including the empty one; but the Excel export per-person sheet is not —
it carries exactly the passengers appearing in the exploded rows. -/
theorem C4_roster_completeness_amended (legs : List Leg) (p : String) :
    (sum_p_display legs).map Prod.fst = PARTICIPANTES ∧
    (matrixTable legs).map Prod.fst = PARTICIPANTES ∧
    (∀ row ∈ matrixTable legs, row.2.map Prod.fst = CONDUCTORES) ∧
    (p ∉ (explodePasajeros legs).filterMap (fun e => e.pasajero) →
      owedTo (explodePasajeros legs) p = 0) ∧
    (p ∈ PARTICIPANTES → (p, owedTo (explodePasajeros legs) p) ∈ sum_p_display legs) ∧
    (p ∈ (excel_sum_persona legs).map Prod.fst ↔
      p ∈ (explodePasajeros legs).filterMap (fun e => e.pasajero)) := by
  refine ⟨?_, ?_, ?_, ?_, ?_, ?_⟩
  · rw [sum_p_display, List.map_map]
    show List.map (fun a => a) PARTICIPANTES = PARTICIPANTES
    exact List.map_id _
  · rw [matrixTable, List.map_map]
    show List.map (fun a => a) PARTICIPANTES = PARTICIPANTES
    exact List.map_id _
  · intro row hrow
    rcases List.mem_map.mp hrow with ⟨q, _, he⟩
    rw [← he]
    simp only [List.map_map]
    show List.map (fun a => a) CONDUCTORES = CONDUCTORES
    exact List.map_id _
  · intro h
    have hf : (explodePasajeros legs).filter (fun e => e.pasajero == some p) = [] := by
      rw [List.filter_eq_nil_iff]
      intro e he
      intro hbeq
      apply h
      apply List.mem_filterMap.mpr
      exact ⟨e, he, by simpa using hbeq⟩
    rw [owedTo, hf]
    rfl
  · intro hp
    exact List.mem_map_of_mem _ hp
  · constructor
    · intro h
      rcases List.mem_map.mp h with ⟨pair, hpair, he⟩
      rcases List.mem_map.mp hpair with ⟨q, hq, he2⟩
      have : q = p := by rw [← he, ← he2]
      subst this
      have hq2 := (sortGen_perm strLeB _).mem_iff.mp hq
      exact List.mem_dedup.mp hq2
    · intro h
      apply List.mem_map.mpr
      refine ⟨(p, owedTo (explodePasajeros legs) p), ?_, rfl⟩
      apply List.mem_map.mpr
      refine ⟨p, ?_, rfl⟩
      exact (sortGen_perm strLeB _).mem_iff.mpr (List.mem_dedup.mpr h)

/-- Claim C4 witness: on the empty collection the displayed summary is
roster-shaped and JP, who appears nowhere, is carried with owed total
0. -/
theorem C4_roster_completeness_witness :
    (sum_p_display []).map Prod.fst = PARTICIPANTES ∧
    owedTo (explodePasajeros []) "JP" = 0 ∧
    ("JP", owedTo (explodePasajeros []) "JP") ∈ sum_p_display [] := by
  have h := C4_roster_completeness_amended [] "JP"
  exact ⟨h.1, h.2.2.2.1 (by decide), h.2.2.2.2.1 (by decide)⟩

/-- Claim C5 counterexample: two legs share the date 2025-01-10; the
history sorts the (Valentina, Vuelta) leg before the (Wilson, Ida) leg
because the source sort key is (date, driver, direction), so the
produced history is not sorted by the claimed (date, direction, driver)
key with Ida before Vuelta. -/
theorem C5_list_ordering_counterexample :
    historial
        [Leg.mk (some 1) (some 20250110) "Wilson" "Ida" (some "Paula") 1250 1 1250,
         Leg.mk (some 2) (some 20250110) "Valentina" "Vuelta" (some "Paula") 1250 1 1250]
        none none CONDUCTORES =
      [Leg.mk (some 2) (some 20250110) "Valentina" "Vuelta" (some "Paula") 1250 1 1250,
       Leg.mk (some 1) (some 20250110) "Wilson" "Ida" (some "Paula") 1250 1 1250] ∧
    ¬ ((historial
        [Leg.mk (some 1) (some 20250110) "Wilson" "Ida" (some "Paula") 1250 1 1250,
         Leg.mk (some 2) (some 20250110) "Valentina" "Vuelta" (some "Paula") 1250 1 1250]
        none none CONDUCTORES).Pairwise (fun a b => specListOrderLe a b = true)) :=
  ⟨by rfl, by decide⟩

/-- Claim C5 (amended): for every collection of legs and every filter
setting, the produced history is sorted ascending by the key
(date, driver, direction) — date primary, driver secondary, direction
tertiary with Ida before Vuelta — it is a permutation of the filtered
rows, and the sort is stable: rows with equal full keys keep their
original (insertion/id) order. -/
theorem C5_list_ordering_amended (legs : List Leg) (desde hasta : Option Nat)
    (drivers : List String) :
    (historial legs desde hasta drivers).Pairwise (fun a b => legLe a b = true) ∧
    List.Perm (historial legs desde hasta drivers) (applyFilters legs desde hasta drivers) ∧
    ∀ k : Nat × Nat × String × String,
      (historial legs desde hasta drivers).filter (fun l => decide (legKey l = k)) =
        (applyFilters legs desde hasta drivers).filter (fun l => decide (legKey l = k)) := by
  refine ⟨?_, sortGen_perm _ _, ?_⟩
  · apply sortGen_sorted
    · intro a b
      exact lex4_total (legKey a) (legKey b)
    · intro a b c h1 h2
      exact lex4_trans (legKey a) (legKey b) (legKey c) h1 h2
  · intro k
    apply sortGen_stable
    intro a b hk
    exact lex4_of_eq hk

theorem assignIds_length (n : Int) (ls : List Leg) : (assignIds n ls).length = ls.length := by
  induction ls generalizing n with
  | nil => rfl
  | cons l ls ih => simp [assignIds, ih]

theorem assignIds_ids (n : Int) (ls : List Leg) :
    (assignIds n ls).map (fun l => l.id) =
      (List.range ls.length).map (fun (i : Nat) => some (n + (i : Int))) := by
  induction ls generalizing n with
  | nil => rfl
  | cons l ls ih =>
    simp only [assignIds, List.map_cons, List.length_cons]
    rw [ih (n + 1), List.range_succ_eq_map, List.map_cons, List.map_map]
    congr 1
    · show some n = some (n + ((0 : Nat) : Int))
      norm_num
    · apply List.map_congr_left
      intro i _
      show some (n + 1 + (i : Int)) = some (n + ((i + 1 : Nat) : Int))
      congr 1
      push_cast
      ring

/-- Claim C6 counterexample: after four legs are created and then all
deleted the id counter stands at 5; importing two rows with an entirely
missing id column reassigns ids 5 and 6 — not 1 and 2 as the claim
requires — so ids are resumed from the session counter rather than
restarted at 1. -/
theorem C6_import_ids_counterexample :
    (∀ l ∈ cleanDF
      [RawRow.mk none (some 20250101) "Wilson" "Ida" (some "Paula") (some 1250) (some 1)
        (some 1250),
       RawRow.mk none (some 20250102) "Wilson" "Ida" (some "JP") (some 1250) (some 1)
        (some 1250)], l.id = none) ∧
    (eliminarFilas
      (addRegistro (addRegistro (AppState.mk [] 1) 20250110 "Wilson" "Ida y Vuelta" 1250
        ["Paula", "JP"]) 20250111 "Wilson" "Ida y Vuelta" 1250 ["Paula"])
      [1, 2, 3, 4]).data = [] ∧
    ((importCSV
      (eliminarFilas
        (addRegistro (addRegistro (AppState.mk [] 1) 20250110 "Wilson" "Ida y Vuelta" 1250
          ["Paula", "JP"]) 20250111 "Wilson" "Ida y Vuelta" 1250 ["Paula"])
        [1, 2, 3, 4])
      [RawRow.mk none (some 20250101) "Wilson" "Ida" (some "Paula") (some 1250) (some 1)
        (some 1250),
       RawRow.mk none (some 20250102) "Wilson" "Ida" (some "JP") (some 1250) (some 1)
        (some 1250)]).data.map (fun l => l.id)) = [some 5, some 6] ∧
    [some (5 : Int), some 6] ≠ [some 1, some 2] := by
  refine ⟨by decide, by rfl, by rfl, by decide⟩

/-- Claim C6 (amended): when the cleaned id column is entirely missing
or invalid, the import assigns consecutive ids starting at the current
internal counter (so 1..N only in a fresh session) and advances the
counter by N; otherwise it adopts the imported ids and moves the counter
strictly past the maximum id seen (missing ids counting as 0).
`_clean_df` coerces a non-numeric fare to 0 and keeps a non-numeric id
as missing, which the per-rerun id normalization then turns into 0. -/
theorem C6_import_ids_amended (s : AppState) (raw : List RawRow) :
    ((∀ l ∈ cleanDF raw, l.id = none) →
      (importCSV s raw).data.map (fun l => l.id) =
        (List.range (cleanDF raw).length).map (fun (i : Nat) => some (s.next_id + (i : Int))) ∧
      (importCSV s raw).next_id = s.next_id + (cleanDF raw).length) ∧
    ((¬ ∀ l ∈ cleanDF raw, l.id = none) →
      (importCSV s raw).data = cleanDF raw ∧
      (importCSV s raw).next_id =
        max s.next_id (listMaxInt ((cleanDF raw).map (fun l => l.id.getD 0)) + 1) ∧
      listMaxInt ((cleanDF raw).map (fun l => l.id.getD 0)) < (importCSV s raw).next_id) ∧
    (∀ rr : RawRow, (cleanRow rr).tarifa_por_tramo = rr.tarifa_por_tramo.getD 0 ∧
      (cleanRow rr).id = rr.id) ∧
    (∀ legs : List Leg, (coerceIds legs).map (fun l => l.id) =
      legs.map (fun l => some (l.id.getD 0))) := by
  have hcond : ((cleanDF raw).all (fun l => decide (l.id = none)) = true) ↔
      (∀ l ∈ cleanDF raw, l.id = none) := by
    rw [List.all_eq_true]
    constructor
    · intro h l hl
      exact decide_eq_true_eq.mp (h l hl)
    · intro h l hl
      exact decide_eq_true (h l hl)
  refine ⟨?_, ?_, ?_, ?_⟩
  · intro h
    have hc : (cleanDF raw).all (fun l => decide (l.id = none)) = true := hcond.mpr h
    constructor
    · simp only [importCSV]
      rw [if_pos hc]
      exact assignIds_ids s.next_id (cleanDF raw)
    · simp only [importCSV]
      rw [if_pos hc]
  · intro h
    have hc : ¬ ((cleanDF raw).all (fun l => decide (l.id = none)) = true) :=
      fun hv => h (hcond.mp hv)
    refine ⟨?_, ?_, ?_⟩
    · simp only [importCSV]
      rw [if_neg hc]
    · simp only [importCSV]
      rw [if_neg hc]
    · simp only [importCSV]
      rw [if_neg hc]
      calc listMaxInt ((cleanDF raw).map (fun l => l.id.getD 0))
          < listMaxInt ((cleanDF raw).map (fun l => l.id.getD 0)) + 1 := lt_add_one _
        _ ≤ max s.next_id (listMaxInt ((cleanDF raw).map (fun l => l.id.getD 0)) + 1) :=
            le_max_right _ _
  · intro rr
    exact ⟨rfl, rfl⟩
  · intro legs
    rw [coerceIds, List.map_map]
    rfl

/-- Claim C6 witness: a fresh-counter-7 import of one id-less row gets
id 7, and an import of one row with id 10 pushes the counter strictly
past 10. -/
theorem C6_import_ids_witness :
    ((importCSV (AppState.mk [] 7)
      [RawRow.mk none (some 20250101) "Wilson" "Ida" (some "Paula") (some 1250) (some 1)
        (some 1250)]).data.map (fun l => l.id) =
      (List.range (cleanDF
        [RawRow.mk none (some 20250101) "Wilson" "Ida" (some "Paula") (some 1250) (some 1)
          (some 1250)]).length).map (fun (i : Nat) => some ((7 : Int) + (i : Int)))) ∧
    listMaxInt ((cleanDF
      [RawRow.mk (some 10) (some 20250101) "Wilson" "Ida" (some "Paula") (some 1250) (some 1)
        (some 1250)]).map (fun l => l.id.getD 0)) <
      (importCSV (AppState.mk [] 1)
        [RawRow.mk (some 10) (some 20250101) "Wilson" "Ida" (some "Paula") (some 1250) (some 1)
          (some 1250)]).next_id := by
  have h1 := C6_import_ids_amended (AppState.mk [] 7)
    [RawRow.mk none (some 20250101) "Wilson" "Ida" (some "Paula") (some 1250) (some 1)
      (some 1250)]
  have h2 := C6_import_ids_amended (AppState.mk [] 1)
    [RawRow.mk (some 10) (some 20250101) "Wilson" "Ida" (some "Paula") (some 1250) (some 1)
      (some 1250)]
  exact ⟨(h1.1 (by decide)).1, (h2.2.1 (by decide)).2.2⟩

/-- Claim C7 counterexample: with the driver-participates flag enabled
the driver is a selectable passenger, and a submission whose only
selected rider is the driver Wilson himself is accepted — two legs are
created and the store grows from 0 to 2 rows — instead of being
rejected. -/
theorem C7_empty_passenger_counterexample :
    "Wilson" ∈ opcionesPasajeros true "Wilson" ∧
    (AppState.mk ([] : List Leg) 1).data.length = 0 ∧
    (addRegistro (AppState.mk [] 1) 20250110 "Wilson" "Ida y Vuelta" 1250
      ["Wilson"]).data.length = 2 := by
  refine ⟨by decide, by rfl, by rfl⟩

/-- Claim C7 (amended): the add handler rejects a submission exactly
when the selected passenger list itself is empty — the driver, where
selectable under the include-driver flag, counts as a rider — and a
rejected submission leaves the state unchanged (atomicity); an accepted
one grows the store by two legs for `Ida y Vuelta` and one leg
otherwise. -/
theorem C7_empty_passenger_amended (s : AppState) (fecha : Nat) (conductor tipo : String)
    (tarifa : Int) (pasajeros : List String) :
    (pasajeros = [] → addRegistro s fecha conductor tipo tarifa pasajeros = s) ∧
    (pasajeros ≠ [] →
      (addRegistro s fecha conductor tipo tarifa pasajeros).data.length =
        s.data.length + (if tipo = "Ida y Vuelta" then 2 else 1)) := by
  constructor
  · intro h
    subst h
    rfl
  · intro h
    have hlen : ¬ (pasajeros.length = 0) := fun he => h (List.length_eq_zero.mp he)
    simp only [addRegistro]
    rw [if_neg hlen]
    by_cases ht : tipo = "Ida y Vuelta"
    · rw [if_pos ht, if_pos ht]
      show (s.data ++ assignIds s.next_id _).length = _
      rw [List.length_append, assignIds_length, List.length_map]
      rfl
    · rw [if_neg ht, if_neg ht]
      show (s.data ++ assignIds s.next_id _).length = _
      rw [List.length_append, assignIds_length, List.length_map]
      rfl

/-- Claim C7 witness: an empty selection leaves a concrete state
untouched, and a one-passenger `Ida` submission adds exactly one leg. -/
theorem C7_empty_passenger_witness :
    addRegistro (AppState.mk [] 3) 20250110 "Wilson" "Ida y Vuelta" 1250 [] =
      AppState.mk [] 3 ∧
    (addRegistro (AppState.mk [] 3) 20250110 "Wilson" "Ida" 1250 ["Paula"]).data.length =
      (AppState.mk ([] : List Leg) 3).data.length +
        (if ("Ida" : String) = "Ida y Vuelta" then 2 else 1) := by
  have h1 := C7_empty_passenger_amended (AppState.mk [] 3) 20250110 "Wilson" "Ida y Vuelta"
    1250 []
  have h2 := C7_empty_passenger_amended (AppState.mk [] 3) 20250110 "Wilson" "Ida" 1250
    ["Paula"]
  exact ⟨h1.1 rfl, h2.2 (by decide)⟩

theorem updateFirst_decomp (editId : Int) (f : Leg → Leg) (data : List Leg)
    (h : ∃ l ∈ data, l.id = some editId) :
    ∃ pre l post, data = pre ++ l :: post ∧ (∀ x ∈ pre, x.id ≠ some editId) ∧
      l.id = some editId ∧ updateFirst editId f data = pre ++ f l :: post := by
  induction data with
  | nil =>
    rcases h with ⟨l, hl, _⟩
    cases hl
  | cons a as ih =>
    by_cases ha : a.id = some editId
    · exact ⟨[], a, as, rfl, by simp, ha, by simp [updateFirst, ha]⟩
    · have h2 : ∃ l ∈ as, l.id = some editId := by
        rcases h with ⟨l, hl, hid⟩
        rcases List.mem_cons.mp hl with rfl | hl2
        · exact absurd hid ha
        · exact ⟨l, hl2, hid⟩
      rcases ih h2 with ⟨pre, l, post, hdec, hpre, hid, hupd⟩
      refine ⟨a :: pre, l, post, by rw [List.cons_append, ← hdec], ?_, hid, ?_⟩
      · intro x hx
        rcases List.mem_cons.mp hx with rfl | hx2
        · exact ha
        · exact hpre x hx2
      · simp only [updateFirst, if_neg ha, hupd, List.cons_append]

/-- Claim C8: for an id present in the store, `Guardar cambios`
rewrites only the first (hence, under unique ids, the only) matching
row: the rows before it all have different ids and are untouched, the
rows after it are untouched, the id of the edited row is preserved, and
its `n_pasajeros` and `monto_al_conductor` are recomputed from the
edited fare and passenger list; the id counter is untouched. -/
theorem C8_update_frame (s : AppState) (editId : Int) (efecha : Nat)
    (econductor etramo : String) (etarifa : Int) (epasajeros : List String)
    (h : ∃ l ∈ s.data, l.id = some editId) :
    ∃ pre l post,
      s.data = pre ++ l :: post ∧
      (∀ x ∈ pre, x.id ≠ some editId) ∧
      l.id = some editId ∧
      (guardarCambios s editId efecha econductor etramo etarifa epasajeros).data =
        pre ++ applyEdit efecha econductor etramo etarifa epasajeros l :: post ∧
      (guardarCambios s editId efecha econductor etramo etarifa epasajeros).next_id =
        s.next_id ∧
      (applyEdit efecha econductor etramo etarifa epasajeros l).id = l.id ∧
      (applyEdit efecha econductor etramo etarifa epasajeros l).n_pasajeros =
        epasajeros.length ∧
      (applyEdit efecha econductor etramo etarifa epasajeros l).monto_al_conductor =
        etarifa * epasajeros.length := by
  rcases updateFirst_decomp editId (applyEdit efecha econductor etramo etarifa epasajeros)
    s.data h with ⟨pre, l, post, hdec, hpre, hid, hupd⟩
  exact ⟨pre, l, post, hdec, hpre, hid, hupd, rfl, rfl, rfl, rfl⟩

/-- Claim C8 witness: editing id 2 in a concrete two-row store rewrites
only the second row and keeps its id. -/
theorem C8_update_frame_witness :
    ∃ pre l post,
      (AppState.mk
        [Leg.mk (some 1) (some 20250110) "Wilson" "Ida" (some "Paula") 1250 1 1250,
         Leg.mk (some 2) (some 20250110) "Wilson" "Vuelta" (some "Paula") 1250 1 1250]
        3).data = pre ++ l :: post ∧
      (∀ x ∈ pre, x.id ≠ some 2) ∧
      l.id = some 2 ∧
      (guardarCambios (AppState.mk
        [Leg.mk (some 1) (some 20250110) "Wilson" "Ida" (some "Paula") 1250 1 1250,
         Leg.mk (some 2) (some 20250110) "Wilson" "Vuelta" (some "Paula") 1250 1 1250]
        3) 2 20250111 "Valentina" "Vuelta" 1500 ["JP", "Gerard"]).data =
        pre ++ applyEdit 20250111 "Valentina" "Vuelta" 1500 ["JP", "Gerard"] l :: post ∧
      (guardarCambios (AppState.mk
        [Leg.mk (some 1) (some 20250110) "Wilson" "Ida" (some "Paula") 1250 1 1250,
         Leg.mk (some 2) (some 20250110) "Wilson" "Vuelta" (some "Paula") 1250 1 1250]
        3) 2 20250111 "Valentina" "Vuelta" 1500 ["JP", "Gerard"]).next_id = 3 ∧
      (applyEdit 20250111 "Valentina" "Vuelta" 1500 ["JP", "Gerard"] l).id = l.id ∧
      (applyEdit 20250111 "Valentina" "Vuelta" 1500 ["JP", "Gerard"] l).n_pasajeros = 2 ∧
      (applyEdit 20250111 "Valentina" "Vuelta" 1500 ["JP", "Gerard"] l).monto_al_conductor =
        1500 * 2 :=
  C8_update_frame
    (AppState.mk
      [Leg.mk (some 1) (some 20250110) "Wilson" "Ida" (some "Paula") 1250 1 1250,
       Leg.mk (some 2) (some 20250110) "Wilson" "Vuelta" (some "Paula") 1250 1 1250]
      3) 2 20250111 "Valentina" "Vuelta" 1500 ["JP", "Gerard"]
    ⟨Leg.mk (some 2) (some 20250110) "Wilson" "Vuelta" (some "Paula") 1250 1 1250,
      by decide, rfl⟩

theorem contains_iff_mem_str (l : List String) (a : String) : l.contains a = true ↔ a ∈ l := by
  simp

theorem matchFrom_iff (desde f : Option Nat) :
    matchFrom desde f = true ↔ ∀ d, desde = some d → ∃ fd, f = some fd ∧ d ≤ fd := by
  cases desde with
  | none => simp [matchFrom]
  | some d =>
    cases f with
    | none => simp [matchFrom]
    | some fd => simp [matchFrom]

theorem matchTo_iff (hasta f : Option Nat) :
    matchTo hasta f = true ↔ ∀ d, hasta = some d → ∃ fd, f = some fd ∧ fd ≤ d := by
  cases hasta with
  | none => simp [matchTo]
  | some d =>
    cases f with
    | none => simp [matchTo]
    | some fd => simp [matchTo]

/-- Claim C9: membership in the filtered history is exactly membership
in the data together with the inclusive date-bound conditions — an
absent bound constrains nothing, a present bound requires a date and
compares inclusively — and the driver condition, which is vacuous when
the driver selection is empty (no driver filtering at all). -/
theorem C9_filter_semantics (legs : List Leg) (desde hasta : Option Nat)
    (drivers : List String) (l : Leg) :
    l ∈ applyFilters legs desde hasta drivers ↔
      (l ∈ legs ∧
       (∀ d, desde = some d → ∃ fd, l.fecha = some fd ∧ d ≤ fd) ∧
       (∀ d, hasta = some d → ∃ fd, l.fecha = some fd ∧ fd ≤ d) ∧
       (drivers ≠ [] → l.conductor ∈ drivers)) := by
  by_cases hd : drivers.isEmpty = true
  · have hdr : drivers = [] := List.isEmpty_iff.mp hd
    subst hdr
    simp only [applyFilters, List.isEmpty_nil, if_true, List.mem_filter,
      matchFrom_iff, matchTo_iff, ne_eq, not_true_eq_false, false_implies, and_true]
    tauto
  · have hne : drivers ≠ [] := fun he => hd (by rw [he]; rfl)
    simp only [applyFilters, if_neg hd, List.mem_filter, matchFrom_iff, matchTo_iff,
      contains_iff_mem_str, ne_eq, hne, not_false_eq_true, true_implies]
    tauto

/-- Claim C10 witness: a concrete cleaned row with an empty passenger
cell and stored amount 777 adds nothing to Paula's owed total but adds
777 to Wilson's driver total. -/
theorem C10_blank_passenger_rows_witness :
    (cleanRow (RawRow.mk none (some 20250101) "Wilson" "Ida" (some "") (some 1250) (some 0)
      (some 777))).pasajeros = some "" ∧
    owedTo (explodePasajeros
      [Leg.mk (some 9) (some 20250101) "Wilson" "Ida" (some "") 1250 0 777]) "Paula" =
      owedTo (explodePasajeros ([] : List Leg)) "Paula" ∧
    driverTotal [Leg.mk (some 9) (some 20250101) "Wilson" "Ida" (some "") 1250 0 777]
      "Wilson" = 777 + driverTotal ([] : List Leg) "Wilson" := by
  have h := C10_blank_passenger_rows
    (RawRow.mk none (some 20250101) "Wilson" "Ida" (some "") (some 1250) (some 0) (some 777))
    (Leg.mk (some 9) (some 20250101) "Wilson" "Ida" (some "") 1250 0 777)
    [] [] "Paula" "Wilson" (Or.inr rfl)
  exact ⟨h.1, h.2.2.1, h.2.2.2.2⟩

end Papudo
